import Mathlib

/-!
Verification of the diverse-probe-selection module (probeFilters.py).

The source has three core functions:
  select_diverse_subset (probe_list, k, probes_per_asn = math.inf)
  next_diverse_selection (probes, selected, nearest_neighbors)
  great_circle_distance (probe1, probe2)

We embed them shallowly.  A probe record keeps the three fields the core
reads: id, asn_v4 (nullable ASN) and geometry (nullable coordinate pair,
longitude then latitude, in degrees).  The selector is parametric in the
distance metric d and in the ordered field of scalars, so that the
algorithmic theorems quantify over every metric (covering the haversine
instantiation, which is defined on the reals below) and so that concrete
witnesses can be evaluated over the rationals.  Python exceptions are
modelled by an Except result: indexError models the IndexError raised by
probes[0] on an empty filtered pool, typeError models the TypeError raised
when select_diverse_subset subscripts the None best-probe returned by
next_diverse_selection.  The while loop is modelled with a fuel argument;
select_diverse_subset passes fuel equal to the length of the remaining
pool, which is adequate because every iteration removes one probe from the
pool, and the lemma selLoop_fuel_congr below proves the result does not
depend on the fuel once the fuel is at least the pool length.
-/

/-- A probe record, keeping the fields read by the core: the probe id, the
nullable IPv4 ASN, and the nullable geometry coordinates
(longitude, latitude) in degrees. -/
structure Probe (α : Type*) where
  id : ℕ
  asn_v4 : Option ℕ
  geometry : Option (α × α)
  deriving DecidableEq

/-- Python exceptions that select_diverse_subset can raise, plus the
EmptyPoolError named by the specification.  The code never constructs
emptyPoolError; the constructor exists only so that the specification
claim about it can be stated and refuted. -/
inductive PyErr where
  | emptyPoolError
  | indexError
  | typeError
  deriving DecidableEq

section Selector

variable {α : Type*} [LinearOrderedField α]

/-- The nearest-neighbor tracker update, line 60 of the source:
nearest_neighbors[probe_id] = min(nearest_neighbors[probe_id],
great_circle_distance(probe, selected[-1])).  The map sends a probe id to
its tracked minimum distance, with positive infinity (top) as the default
of the defaultdict. -/
def ndsUpdate (d : Probe α → Probe α → α) (last : Probe α)
    (nn : ℕ → WithTop α) (p : Probe α) : ℕ → WithTop α :=
  fun i => if i = p.id then min (nn p.id) ((d p last : WithTop α)) else nn i

/-- One iteration of the for-loop in next_diverse_selection
(lines 57-64): update the tracker entry of probe p against the most
recently selected probe, then compare the updated value against the
running maximum (strictly, so the first probe attaining the maximum is
kept).  The state is (best_probe, max_min_dist, nearest_neighbors). -/
def ndsStep (d : Probe α → Probe α → α) (last : Probe α)
    (st : Option (Probe α) × WithTop α × (ℕ → WithTop α)) (p : Probe α) :
    Option (Probe α) × WithTop α × (ℕ → WithTop α) :=
  if st.2.1 < ndsUpdate d last st.2.2 p p.id then
    (some p, ndsUpdate d last st.2.2 p p.id, ndsUpdate d last st.2.2 p)
  else
    (st.1, st.2.1, ndsUpdate d last st.2.2 p)

/-- next_diverse_selection (lines 49-66).  max_min_dist starts at -1 and
best_probe at None; the loop folds ndsStep over the probes, reading
selected[-1] through getLast?.  When probes is nonempty and selected is
empty the Python code would raise an IndexError at selected[-1]; the
caller always passes a nonempty selected list, and on that unreachable
path we return (none, nearest_neighbors). -/
def next_diverse_selection (d : Probe α → Probe α → α)
    (probes selected : List (Probe α)) (nearest_neighbors : ℕ → WithTop α) :
    Option (Probe α) × (ℕ → WithTop α) :=
  match selected.getLast? with
  | none => (none, nearest_neighbors)
  | some last =>
    let r := probes.foldl (ndsStep d last)
      (none, (((-1 : α) : WithTop α)), nearest_neighbors)
    (r.1, r.2.2)

/-- Counter increment: asn_counts[select[asn_v4]] += 1 (line 44).  The
source also computes a dead variable key (line 43, mapping a missing ASN
to the string unknown) but never uses it; the Counter is keyed by the raw
asn_v4 value, so all probes with a missing ASN share the single key none. -/
def incrCount (cnt : Option ℕ → ℕ) (g : Option ℕ) : Option ℕ → ℕ :=
  fun g2 => if g2 = g then cnt g2 + 1 else cnt g2

/-- The while loop of select_diverse_subset (lines 38-45), with an explicit
fuel argument standing for the (finite) number of remaining iterations.
Each iteration filters the pool by the ASN cap, asks
next_diverse_selection for the next probe, and either appends it
(incrementing its ASN count and removing it from the pool) or, when
next_diverse_selection returned None, raises the TypeError that Python
raises at select[asn_v4]. -/
def selLoop [DecidableEq α] (d : Probe α → Probe α → α) (k : ℕ)
    (probes_per_asn : WithTop ℕ) :
    ℕ → List (Probe α) → List (Probe α) → (Option ℕ → ℕ) →
    (ℕ → WithTop α) → Except PyErr (List (Probe α))
  | 0, _, selected, _, _ => .ok selected
  | fuel + 1, probes, selected, asn_counts, nearest_neighbors =>
    if selected.length < k ∧ probes ≠ [] then
      let probes1 := probes.filter fun p =>
        decide ((asn_counts p.asn_v4 : WithTop ℕ) < probes_per_asn)
      match next_diverse_selection d probes1 selected nearest_neighbors with
      | (none, _) => .error .typeError
      | (some b, nn2) =>
        selLoop d k probes_per_asn fuel (probes1.erase b) (selected ++ [b])
          (incrCount asn_counts b.asn_v4) nn2
    else .ok selected

/-- select_diverse_subset (lines 7-47), parametric in the distance metric
d (the source hardcodes great_circle_distance, see
select_diverse_subset_geo below).  Probes without geometry are filtered
out; the first remaining probe seeds the selection (probes[0], raising an
IndexError when the filtered pool is empty) and its ASN initializes the
Counter; the remaining pool and the loop then run as in selLoop. -/
def select_diverse_subset [DecidableEq α] (d : Probe α → Probe α → α)
    (probe_list : List (Probe α)) (k : ℕ) (probes_per_asn : WithTop ℕ) :
    Except PyErr (List (Probe α)) :=
  match probe_list.filter (fun p => p.geometry.isSome) with
  | [] => .error .indexError
  | p0 :: rest =>
    selLoop d k probes_per_asn rest.length rest [p0]
      (fun g => if g = p0.asn_v4 then 1 else 0) (fun _ => ⊤)

end Selector

/-- Degree-to-radian conversion, math.radians (line 72). -/
noncomputable def radians (x : ℝ) : ℝ := x * (Real.pi / 180)

/-- The haversine formula on radian coordinates (lines 74-79):
a = sin((lat2-lat1)/2)^2 + cos lat1 * cos lat2 * sin((long2-long1)/2)^2,
c = 2 * asin(sqrt a), distance = 6371 * c kilometers. -/
noncomputable def haversine_km (long1 lat1 long2 lat2 : ℝ) : ℝ :=
  6371 * (2 * Real.arcsin (Real.sqrt
    (Real.sin ((lat2 - lat1) / 2) ^ 2 +
      Real.cos lat1 * Real.cos lat2 * Real.sin ((long2 - long1) / 2) ^ 2)))

/-- great_circle_distance (lines 68-79): reads the coordinate pairs of the
two probes, converts the four degree values to radians, and applies the
haversine formula.  On a probe without geometry Python would raise a
TypeError; the selector only calls the metric on position-filtered probes,
and on that unreachable path we return 0. -/
noncomputable def great_circle_distance (probe1 probe2 : Probe ℝ) : ℝ :=
  match probe1.geometry, probe2.geometry with
  | some g1, some g2 =>
    haversine_km (radians g1.1) (radians g1.2) (radians g2.1) (radians g2.2)
  | _, _ => 0

/-- The selector exactly as in the source, with the haversine metric. -/
noncomputable def select_diverse_subset_geo (probe_list : List (Probe ℝ))
    (k : ℕ) (probes_per_asn : WithTop ℕ) : Except PyErr (List (Probe ℝ)) :=
  select_diverse_subset great_circle_distance probe_list k probes_per_asn

section RoundInvariant

variable {α : Type*} [LinearOrderedField α]

/-- The value the tracker holds for probe p at the end of one round of
next_diverse_selection: the minimum of its previous entry and its distance
to the most recently selected probe. -/
def ndsValue (d : Probe α → Probe α → α) (last : Probe α)
    (nn0 : ℕ → WithTop α) (p : Probe α) : WithTop α :=
  min (nn0 p.id) ((d p last : WithTop α))

/-- Invariant of the for-loop fold of next_diverse_selection after the
prefix l of the probe list has been processed, for a round that started
with tracker map nn0.  The tracker holds ndsValue for every processed
probe and is untouched elsewhere; the running best probe is none while
every processed value is at most the initial -1, and otherwise it is the
first processed probe attaining the maximum processed value. -/
def NdsInv (d : Probe α → Probe α → α) (last : Probe α)
    (nn0 : ℕ → WithTop α) (l : List (Probe α))
    (st : Option (Probe α) × WithTop α × (ℕ → WithTop α)) : Prop :=
  (∀ p ∈ l, st.2.2 p.id = ndsValue d last nn0 p) ∧
  (∀ i, i ∉ l.map Probe.id → st.2.2 i = nn0 i) ∧
  ((st.1 = none ∧ st.2.1 = ((-1 : α) : WithTop α) ∧
      ∀ p ∈ l, ndsValue d last nn0 p ≤ ((-1 : α) : WithTop α)) ∨
    (∃ b l1 l2, st.1 = some b ∧ st.2.1 = ndsValue d last nn0 b ∧
      l = l1 ++ b :: l2 ∧
      (∀ p ∈ l, ndsValue d last nn0 p ≤ ndsValue d last nn0 b) ∧
      (∀ p ∈ l1, ndsValue d last nn0 p < ndsValue d last nn0 b)))

end RoundInvariant

/-! ### Helper lemmas about the selection fold -/

section SelectorLemmas

variable {α : Type*} [LinearOrderedField α]
variable {d : Probe α → Probe α → α} {last : Probe α}

theorem ndsUpdate_self (nn : ℕ → WithTop α) (p : Probe α) :
    ndsUpdate d last nn p p.id = min (nn p.id) ((d p last : WithTop α)) := by
  simp [ndsUpdate]

theorem ndsUpdate_le (nn : ℕ → WithTop α) (p : Probe α) (i : ℕ) :
    ndsUpdate d last nn p i ≤ nn i := by
  unfold ndsUpdate
  split
  · rename_i h
    subst h
    exact min_le_left _ _
  · exact le_rfl

theorem ndsStep_nn (st : Option (Probe α) × WithTop α × (ℕ → WithTop α))
    (p : Probe α) : (ndsStep d last st p).2.2 = ndsUpdate d last st.2.2 p := by
  unfold ndsStep
  split <;> rfl

theorem ndsStep_fst (st : Option (Probe α) × WithTop α × (ℕ → WithTop α))
    (p : Probe α) :
    (ndsStep d last st p).1 =
      if st.2.1 < ndsUpdate d last st.2.2 p p.id then some p else st.1 := by
  unfold ndsStep
  split <;> simp_all

theorem ndsFold_mem (l : List (Probe α)) :
    ∀ st b, (l.foldl (ndsStep d last) st).1 = some b → st.1 = some b ∨ b ∈ l := by
  induction l with
  | nil => exact fun st b h => Or.inl h
  | cons p t ih =>
    intro st b h
    rcases ih _ _ h with h1 | h1
    · rw [ndsStep_fst] at h1
      split at h1
      · exact Or.inr (Option.some.inj h1 ▸ List.mem_cons_self p t)
      · exact Or.inl h1
    · exact Or.inr (List.mem_cons_of_mem _ h1)

theorem ndsFold_nn_le (l : List (Probe α)) :
    ∀ st i, (l.foldl (ndsStep d last) st).2.2 i ≤ st.2.2 i := by
  induction l with
  | nil => exact fun st i => le_rfl
  | cons p t ih =>
    intro st i
    calc (List.foldl (ndsStep d last) (ndsStep d last st p) t).2.2 i
        ≤ (ndsStep d last st p).2.2 i := ih _ i
      _ ≤ st.2.2 i := by rw [ndsStep_nn]; exact ndsUpdate_le _ _ _

theorem ndsFold_isSome (l : List (Probe α)) :
    ∀ st, st.1.isSome → ((l.foldl (ndsStep d last) st).1).isSome := by
  induction l with
  | nil => exact fun st h => h
  | cons p t ih =>
    intro st h
    apply ih
    rw [ndsStep_fst]
    split
    · rfl
    · exact h

theorem ndsFold_nonneg (hd : ∀ p q, 0 ≤ d p q) (l : List (Probe α)) :
    ∀ st, (∀ i, (0 : WithTop α) ≤ st.2.2 i) →
      ∀ i, (0 : WithTop α) ≤ (l.foldl (ndsStep d last) st).2.2 i := by
  induction l with
  | nil => exact fun st h => h
  | cons p t ih =>
    intro st h
    apply ih
    intro i
    rw [ndsStep_nn]
    unfold ndsUpdate
    split
    · exact le_min (h _) (by exact_mod_cast hd p last)
    · exact h i

theorem nds_some_mem {probes selected : List (Probe α)} {nn : ℕ → WithTop α}
    {b : Probe α}
    (h : (next_diverse_selection d probes selected nn).1 = some b) :
    b ∈ probes := by
  unfold next_diverse_selection at h
  cases hl : selected.getLast? with
  | none => rw [hl] at h; simp at h
  | some last2 =>
    rw [hl] at h
    simp only at h
    rcases ndsFold_mem _ _ _ h with h1 | h1
    · exact absurd h1 (by simp)
    · exact h1

theorem nds_nn_le {probes selected : List (Probe α)} {nn : ℕ → WithTop α}
    (i : ℕ) : (next_diverse_selection d probes selected nn).2 i ≤ nn i := by
  unfold next_diverse_selection
  cases hl : selected.getLast? with
  | none => exact le_rfl
  | some last2 => exact ndsFold_nn_le _ _ _

theorem nds_nonneg {probes selected : List (Probe α)} {nn : ℕ → WithTop α}
    (hd : ∀ p q, 0 ≤ d p q) (hnn : ∀ i, (0 : WithTop α) ≤ nn i) (i : ℕ) :
    (0 : WithTop α) ≤ (next_diverse_selection d probes selected nn).2 i := by
  unfold next_diverse_selection
  cases hl : selected.getLast? with
  | none => exact hnn i
  | some last2 => exact ndsFold_nonneg hd _ _ hnn i

theorem nds_isSome {probes selected : List (Probe α)} {nn : ℕ → WithTop α}
    (hd : ∀ p q, 0 ≤ d p q) (hnn : ∀ i, (0 : WithTop α) ≤ nn i)
    (hprobes : probes ≠ []) (hsel : selected ≠ []) :
    ((next_diverse_selection d probes selected nn).1).isSome := by
  unfold next_diverse_selection
  cases hl : selected.getLast? with
  | none => exact absurd (List.getLast?_eq_none_iff.mp hl) hsel
  | some last2 =>
    simp only
    rcases List.exists_cons_of_ne_nil hprobes with ⟨p, t, rfl⟩
    rw [List.foldl_cons]
    apply ndsFold_isSome
    rw [ndsStep_fst]
    have hcond : (((-1 : α) : WithTop α)) <
        ndsUpdate d last2 nn p p.id := by
      rw [ndsUpdate_self]
      refine lt_of_lt_of_le ?_ (le_min (hnn _) (by exact_mod_cast hd p last2))
      exact_mod_cast neg_one_lt_zero
    rw [if_pos hcond]
    rfl

variable [DecidableEq α] {k : ℕ} {cap : WithTop ℕ}

theorem selLoop_zero {probes selected : List (Probe α)} {cnt : Option ℕ → ℕ}
    {nn : ℕ → WithTop α} :
    selLoop d k cap 0 probes selected cnt nn = .ok selected := rfl

theorem selLoop_succ_stop {fuel : ℕ} {probes selected : List (Probe α)}
    {cnt : Option ℕ → ℕ} {nn : ℕ → WithTop α}
    (hc : ¬(selected.length < k ∧ probes ≠ [])) :
    selLoop d k cap (fuel + 1) probes selected cnt nn = .ok selected := by
  simp only [selLoop]
  rw [if_neg hc]

theorem selLoop_succ_none {fuel : ℕ} {probes selected : List (Probe α)}
    {cnt : Option ℕ → ℕ} {nn nn2 : ℕ → WithTop α}
    (hc : selected.length < k ∧ probes ≠ [])
    (heq : next_diverse_selection d
        (probes.filter fun p => decide ((cnt p.asn_v4 : WithTop ℕ) < cap))
        selected nn = (none, nn2)) :
    selLoop d k cap (fuel + 1) probes selected cnt nn = .error .typeError := by
  simp only [selLoop]
  rw [if_pos hc, heq]

theorem selLoop_succ_some {fuel : ℕ} {probes selected : List (Probe α)}
    {cnt : Option ℕ → ℕ} {nn nn2 : ℕ → WithTop α} {b : Probe α}
    (hc : selected.length < k ∧ probes ≠ [])
    (heq : next_diverse_selection d
        (probes.filter fun p => decide ((cnt p.asn_v4 : WithTop ℕ) < cap))
        selected nn = (some b, nn2)) :
    selLoop d k cap (fuel + 1) probes selected cnt nn =
      selLoop d k cap fuel
        ((probes.filter fun p =>
          decide ((cnt p.asn_v4 : WithTop ℕ) < cap)).erase b)
        (selected ++ [b]) (incrCount cnt b.asn_v4) nn2 := by
  simp only [selLoop]
  rw [if_pos hc, heq]

theorem selLoop_ok_head :
    ∀ (fuel : ℕ) (probes selected : List (Probe α)) (cnt : Option ℕ → ℕ)
      (nn : ℕ → WithTop α) (sel : List (Probe α)),
      selected ≠ [] → selLoop d k cap fuel probes selected cnt nn = .ok sel →
      sel.head? = selected.head? := by
  intro fuel
  induction fuel with
  | zero =>
    intro probes selected cnt nn sel _ h
    rw [selLoop_zero] at h
    cases h
    rfl
  | succ n ih =>
    intro probes selected cnt nn sel hne h
    by_cases hc : selected.length < k ∧ probes ≠ []
    · rcases hnds : next_diverse_selection d
          (probes.filter fun p => decide ((cnt p.asn_v4 : WithTop ℕ) < cap))
          selected nn with ⟨ob, nn2⟩
      cases ob with
      | none =>
        rw [selLoop_succ_none hc hnds] at h
        exact absurd h (by simp)
      | some b =>
        rw [selLoop_succ_some hc hnds] at h
        have h2 := ih _ _ _ _ _ (by simp) h
        rw [h2]
        rcases List.exists_cons_of_ne_nil hne with ⟨x, xs, rfl⟩
        rfl
    · rw [selLoop_succ_stop hc] at h
      cases h
      rfl

theorem selLoop_fuel_congr :
    ∀ (f g : ℕ) (probes selected : List (Probe α)) (cnt : Option ℕ → ℕ)
      (nn : ℕ → WithTop α),
      probes.length ≤ f → probes.length ≤ g →
      selLoop d k cap f probes selected cnt nn =
        selLoop d k cap g probes selected cnt nn := by
  intro f
  induction f with
  | zero =>
    intro g probes selected cnt nn hf _
    have hp : probes = [] := List.eq_nil_of_length_eq_zero (Nat.le_zero.mp hf)
    subst hp
    cases g with
    | zero => rfl
    | succ m => rw [selLoop_zero, selLoop_succ_stop (by simp)]
  | succ n ih =>
    intro g probes selected cnt nn hf hg
    cases g with
    | zero =>
      have hp : probes = [] := List.eq_nil_of_length_eq_zero (Nat.le_zero.mp hg)
      subst hp
      rw [selLoop_zero, selLoop_succ_stop (by simp)]
    | succ m =>
      by_cases hc : selected.length < k ∧ probes ≠ []
      · rcases hnds : next_diverse_selection d
            (probes.filter fun p => decide ((cnt p.asn_v4 : WithTop ℕ) < cap))
            selected nn with ⟨ob, nn2⟩
        cases ob with
        | none =>
          rw [selLoop_succ_none hc hnds, selLoop_succ_none hc hnds]
        | some b =>
          rw [selLoop_succ_some hc hnds, selLoop_succ_some hc hnds]
          have hb : b ∈ probes.filter
              fun p => decide ((cnt p.asn_v4 : WithTop ℕ) < cap) :=
            nds_some_mem (by rw [hnds])
          have hlen : ((probes.filter fun p =>
              decide ((cnt p.asn_v4 : WithTop ℕ) < cap)).erase b).length + 1 ≤
              probes.length := by
            rw [List.length_erase_of_mem hb]
            have h1 : 1 ≤ (probes.filter fun p =>
                decide ((cnt p.asn_v4 : WithTop ℕ) < cap)).length :=
              List.length_pos.mpr (List.ne_nil_of_mem hb)
            have h2 := List.length_filter_le
              (fun p => decide ((cnt p.asn_v4 : WithTop ℕ) < cap)) probes
            omega
          exact ih m _ _ _ _ (by omega) (by omega)
      · rw [selLoop_succ_stop hc, selLoop_succ_stop hc]

theorem selLoop_count :
    ∀ (fuel : ℕ) (probes selected : List (Probe α)) (cnt : Option ℕ → ℕ)
      (nn : ℕ → WithTop α) (sel : List (Probe α)) (c : Probe α),
      selLoop d k cap fuel probes selected cnt nn = .ok sel →
      sel.count c ≤ selected.count c + probes.count c := by
  intro fuel
  induction fuel with
  | zero =>
    intro probes selected cnt nn sel c h
    rw [selLoop_zero] at h
    cases h
    exact Nat.le_add_right _ _
  | succ n ih =>
    intro probes selected cnt nn sel c h
    by_cases hc : selected.length < k ∧ probes ≠ []
    · rcases hnds : next_diverse_selection d
          (probes.filter fun p => decide ((cnt p.asn_v4 : WithTop ℕ) < cap))
          selected nn with ⟨ob, nn2⟩
      cases ob with
      | none =>
        rw [selLoop_succ_none hc hnds] at h
        exact absurd h (by simp)
      | some b =>
        rw [selLoop_succ_some hc hnds] at h
        have hrec := ih _ _ _ _ _ c h
        have hb : b ∈ probes.filter
            fun p => decide ((cnt p.asn_v4 : WithTop ℕ) < cap) :=
          nds_some_mem (by rw [hnds])
        have hfc : (probes.filter fun p =>
            decide ((cnt p.asn_v4 : WithTop ℕ) < cap)).count c ≤
            probes.count c :=
          (List.filter_sublist _).count_le c
        rw [List.count_append] at hrec
        by_cases hcb : c = b
        · subst hcb
          rw [List.count_erase_self] at hrec
          have hpos : 0 < (probes.filter fun p =>
              decide ((cnt p.asn_v4 : WithTop ℕ) < cap)).count c :=
            List.count_pos_iff.mpr hb
          have hone : List.count c [c] = 1 := by simp
          omega
        · rw [List.count_erase_of_ne hcb] at hrec
          have hzero : List.count c [b] = 0 := by simp [hcb]
          omega
    · rw [selLoop_succ_stop hc] at h
      cases h
      exact Nat.le_add_right _ _

theorem selLoop_cap :
    ∀ (fuel : ℕ) (probes selected : List (Probe α)) (cnt : Option ℕ → ℕ)
      (nn : ℕ → WithTop α) (sel : List (Probe α)),
      (∀ g, selected.countP (fun p => decide (p.asn_v4 = g)) = cnt g) →
      (∀ g, (cnt g : WithTop ℕ) ≤ cap) →
      selLoop d k cap fuel probes selected cnt nn = .ok sel →
      ∀ g, ((sel.countP (fun p => decide (p.asn_v4 = g)) : ℕ) : WithTop ℕ) ≤
        cap := by
  intro fuel
  induction fuel with
  | zero =>
    intro probes selected cnt nn sel hcnt hle h g
    rw [selLoop_zero] at h
    cases h
    rw [hcnt g]
    exact hle g
  | succ n ih =>
    intro probes selected cnt nn sel hcnt hle h g
    by_cases hc : selected.length < k ∧ probes ≠ []
    · rcases hnds : next_diverse_selection d
          (probes.filter fun p => decide ((cnt p.asn_v4 : WithTop ℕ) < cap))
          selected nn with ⟨ob, nn2⟩
      cases ob with
      | none =>
        rw [selLoop_succ_none hc hnds] at h
        exact absurd h (by simp)
      | some b =>
        rw [selLoop_succ_some hc hnds] at h
        have hb : b ∈ probes.filter
            fun p => decide ((cnt p.asn_v4 : WithTop ℕ) < cap) :=
          nds_some_mem (by rw [hnds])
        have hblt : (cnt b.asn_v4 : WithTop ℕ) < cap := by
          have := (List.mem_filter.mp hb).2
          exact of_decide_eq_true this
        refine ih _ _ _ _ _ ?_ ?_ h g
        · intro g2
          rw [List.countP_append]
          by_cases hg : g2 = b.asn_v4
          · subst hg
            have h2 : incrCount cnt b.asn_v4 b.asn_v4 = cnt b.asn_v4 + 1 := by
              simp [incrCount]
            rw [h2, ← hcnt b.asn_v4]
            simp
          · have hne2 : ¬ b.asn_v4 = g2 := fun hcl => hg hcl.symm
            have h2 : incrCount cnt b.asn_v4 g2 = cnt g2 := by
              simp [incrCount, hg]
            rw [h2, ← hcnt g2]
            simp [hne2]
        · intro g2
          by_cases hg : g2 = b.asn_v4
          · subst hg
            have h2 : incrCount cnt b.asn_v4 b.asn_v4 = cnt b.asn_v4 + 1 := by
              simp [incrCount]
            rw [h2]
            rcases cap with _ | m
            · exact le_top
            · have h1 : (cnt b.asn_v4 : WithTop ℕ) < (m : WithTop ℕ) := hblt
              have h3 : cnt b.asn_v4 < m := Nat.cast_lt.mp h1
              show ((cnt b.asn_v4 + 1 : ℕ) : WithTop ℕ) ≤ ((m : ℕ) : WithTop ℕ)
              exact Nat.cast_le.mpr (by omega)
          · have h2 : incrCount cnt b.asn_v4 g2 = cnt g2 := by
              simp [incrCount, hg]
            rw [h2]
            exact hle g2
    · rw [selLoop_succ_stop hc] at h
      cases h
      rw [hcnt g]
      exact hle g

theorem selLoop_top_len (hd : ∀ p q : Probe α, 0 ≤ d p q) :
    ∀ (fuel : ℕ) (probes selected : List (Probe α)) (cnt : Option ℕ → ℕ)
      (nn : ℕ → WithTop α),
      probes.length ≤ fuel → selected ≠ [] →
      (∀ i, (0 : WithTop α) ≤ nn i) →
      ∃ sel, selLoop d k ⊤ fuel probes selected cnt nn = .ok sel ∧
        sel.length =
          max selected.length (min k (selected.length + probes.length)) := by
  intro fuel
  induction fuel with
  | zero =>
    intro probes selected cnt nn hf _ _
    have hp : probes = [] := List.eq_nil_of_length_eq_zero (Nat.le_zero.mp hf)
    subst hp
    refine ⟨selected, selLoop_zero, ?_⟩
    simp only [List.length_nil]
    omega
  | succ n ih =>
    intro probes selected cnt nn hf hne hnn
    by_cases hc : selected.length < k ∧ probes ≠ []
    · have hfil : (probes.filter fun p =>
          decide ((cnt p.asn_v4 : WithTop ℕ) < (⊤ : WithTop ℕ))) = probes :=
        List.filter_eq_self.mpr fun a _ =>
          decide_eq_true (WithTop.natCast_lt_top _)
      have hpne2 : (probes.filter fun p =>
          decide ((cnt p.asn_v4 : WithTop ℕ) < (⊤ : WithTop ℕ))) ≠ [] := by
        rw [hfil]; exact hc.2
      have hsome := nds_isSome hd hnn hpne2 hne
      obtain ⟨b, hb⟩ := Option.isSome_iff_exists.mp hsome
      have hpair : next_diverse_selection d (probes.filter fun p =>
          decide ((cnt p.asn_v4 : WithTop ℕ) < (⊤ : WithTop ℕ))) selected nn =
          (some b, (next_diverse_selection d (probes.filter fun p =>
            decide ((cnt p.asn_v4 : WithTop ℕ) < (⊤ : WithTop ℕ)))
            selected nn).2) := by
        rw [← hb]
      rw [selLoop_succ_some hc hpair, hfil]
      have hbmem : b ∈ probes := by
        rw [← hfil]; exact nds_some_mem hb
      have hplen : 1 ≤ probes.length := List.length_pos.mpr hc.2
      have herase : (probes.erase b).length = probes.length - 1 :=
        List.length_erase_of_mem hbmem
      obtain ⟨sel, hseq, hslen⟩ := ih (probes.erase b) (selected ++ [b])
        (incrCount cnt b.asn_v4) ((next_diverse_selection d probes
          selected nn).2)
        (by omega) (by simp) (fun i => nds_nonneg hd hnn i)
      refine ⟨sel, hseq, ?_⟩
      rw [hslen]
      have h1 := hc.1
      simp only [List.length_append, List.length_cons, List.length_nil, herase]
      omega
    · refine ⟨selected, selLoop_succ_stop hc, ?_⟩
      rcases not_and_or.mp hc with h1 | h1
      · have h2 : k ≤ selected.length := not_lt.mp h1
        omega
      · have h2 : probes = [] := not_not.mp h1
        subst h2
        simp only [List.length_nil]
        omega

theorem ndsStep_snd_fst (st : Option (Probe α) × WithTop α × (ℕ → WithTop α))
    (p : Probe α) :
    (ndsStep d last st p).2.1 =
      if st.2.1 < ndsUpdate d last st.2.2 p p.id then
        ndsUpdate d last st.2.2 p p.id
      else st.2.1 := by
  unfold ndsStep
  split <;> simp_all

theorem ndsInv_nil {nn0 : ℕ → WithTop α} :
    NdsInv d last nn0 [] (none, ((-1 : α) : WithTop α), nn0) :=
  ⟨fun p hp => absurd hp (List.not_mem_nil p), fun _ _ => rfl,
    Or.inl ⟨rfl, rfl, fun p hp => absurd hp (List.not_mem_nil p)⟩⟩

theorem ndsInv_step {nn0 : ℕ → WithTop α} {l : List (Probe α)}
    {st : Option (Probe α) × WithTop α × (ℕ → WithTop α)} {p : Probe α}
    (hid : p.id ∉ l.map Probe.id) (hinv : NdsInv d last nn0 l st) :
    NdsInv d last nn0 (l ++ [p]) (ndsStep d last st p) := by
  obtain ⟨h1, h2, h3⟩ := hinv
  have hval : ndsUpdate d last st.2.2 p p.id = ndsValue d last nn0 p := by
    rw [ndsUpdate_self, h2 p.id hid]
    rfl
  refine ⟨?_, ?_, ?_⟩
  · intro q hq
    rw [ndsStep_nn]
    rcases List.mem_append.mp hq with hq | hq
    · have hqid : q.id ≠ p.id := by
        intro he
        exact hid (he ▸ List.mem_map_of_mem Probe.id hq)
      show ndsUpdate d last st.2.2 p q.id = _
      unfold ndsUpdate
      rw [if_neg hqid]
      exact h1 q hq
    · have hq2 : q = p := by simpa using hq
      subst hq2
      exact hval
  · intro i hi
    rw [ndsStep_nn]
    have hip : i ≠ p.id := by
      intro he
      refine hi ?_
      rw [List.map_append]
      exact List.mem_append.mpr (Or.inr (by simp [he]))
    have hil : i ∉ l.map Probe.id := by
      intro hmem
      refine hi ?_
      rw [List.map_append]
      exact List.mem_append.mpr (Or.inl hmem)
    show ndsUpdate d last st.2.2 p i = nn0 i
    unfold ndsUpdate
    rw [if_neg hip]
    exact h2 i hil
  · rcases h3 with ⟨hb, hm, hall⟩ | ⟨b, l1, l2, hb, hm, hsplit, hall, hstrict⟩
    · by_cases hcond : st.2.1 < ndsUpdate d last st.2.2 p p.id
      · have hlt : ((-1 : α) : WithTop α) < ndsValue d last nn0 p := by
          have hcond2 := hcond
          rw [hm, hval] at hcond2
          exact hcond2
        right
        refine ⟨p, l, [], ?_, ?_, rfl, ?_, ?_⟩
        · rw [ndsStep_fst, if_pos hcond]
        · rw [ndsStep_snd_fst, if_pos hcond, hval]
        · intro q hq
          rcases List.mem_append.mp hq with hq | hq
          · exact le_trans (hall q hq) (le_of_lt hlt)
          · have hq2 : q = p := by simpa using hq
            subst hq2
            exact le_rfl
        · intro q hq
          exact lt_of_le_of_lt (hall q hq) hlt
      · have hle2 : ndsValue d last nn0 p ≤ ((-1 : α) : WithTop α) := by
          have hcond2 := hcond
          rw [hm, hval] at hcond2
          exact not_lt.mp hcond2
        left
        refine ⟨?_, ?_, ?_⟩
        · rw [ndsStep_fst, if_neg hcond]
          exact hb
        · rw [ndsStep_snd_fst, if_neg hcond]
          exact hm
        · intro q hq
          rcases List.mem_append.mp hq with hq | hq
          · exact hall q hq
          · have hq2 : q = p := by simpa using hq
            subst hq2
            exact hle2
    · by_cases hcond : st.2.1 < ndsUpdate d last st.2.2 p p.id
      · have hlt : ndsValue d last nn0 b < ndsValue d last nn0 p := by
          have hcond2 := hcond
          rw [hm, hval] at hcond2
          exact hcond2
        right
        refine ⟨p, l, [], ?_, ?_, rfl, ?_, ?_⟩
        · rw [ndsStep_fst, if_pos hcond]
        · rw [ndsStep_snd_fst, if_pos hcond, hval]
        · intro q hq
          rcases List.mem_append.mp hq with hq | hq
          · exact le_trans (hall q hq) (le_of_lt hlt)
          · have hq2 : q = p := by simpa using hq
            subst hq2
            exact le_rfl
        · intro q hq
          exact lt_of_le_of_lt (hall q hq) hlt
      · have hle2 : ndsValue d last nn0 p ≤ ndsValue d last nn0 b := by
          have hcond2 := hcond
          rw [hm, hval] at hcond2
          exact not_lt.mp hcond2
        right
        refine ⟨b, l1, l2 ++ [p], ?_, ?_, ?_, ?_, hstrict⟩
        · rw [ndsStep_fst, if_neg hcond]
          exact hb
        · rw [ndsStep_snd_fst, if_neg hcond]
          exact hm
        · rw [hsplit]
          simp
        · intro q hq
          rcases List.mem_append.mp hq with hq | hq
          · exact hall q hq
          · have hq2 : q = p := by simpa using hq
            subst hq2
            exact hle2

theorem ndsFold_inv {nn0 : ℕ → WithTop α} :
    ∀ (l2 l1 : List (Probe α))
      (st : Option (Probe α) × WithTop α × (ℕ → WithTop α)),
      ((l1 ++ l2).map Probe.id).Nodup →
      NdsInv d last nn0 l1 st →
      NdsInv d last nn0 (l1 ++ l2) (l2.foldl (ndsStep d last) st) := by
  intro l2
  induction l2 with
  | nil =>
    intro l1 st _ h
    simpa using h
  | cons p t ih =>
    intro l1 st hnd h
    have hpid : p.id ∉ l1.map Probe.id := by
      rw [List.map_append] at hnd
      intro hmem
      exact (List.nodup_append.mp hnd).2.2 hmem (by simp)
    have hstep := ndsInv_step hpid h
    have hres := ih (l1 ++ [p]) (ndsStep d last st p) (by simpa using hnd)
      hstep
    simpa using hres

end SelectorLemmas

/-! ### Helper lemmas about the haversine metric -/

theorem haversine_km_symm (long1 lat1 long2 lat2 : ℝ) :
    haversine_km long1 lat1 long2 lat2 = haversine_km long2 lat2 long1 lat1 := by
  unfold haversine_km
  have harg : Real.sin ((lat1 - lat2) / 2) ^ 2 +
      Real.cos lat2 * Real.cos lat1 * Real.sin ((long1 - long2) / 2) ^ 2 =
      Real.sin ((lat2 - lat1) / 2) ^ 2 +
      Real.cos lat1 * Real.cos lat2 * Real.sin ((long2 - long1) / 2) ^ 2 := by
    rw [show (lat1 - lat2) / 2 = -((lat2 - lat1) / 2) by ring,
      show (long1 - long2) / 2 = -((long2 - long1) / 2) by ring,
      Real.sin_neg, Real.sin_neg]
    ring
  rw [harg]

theorem great_circle_distance_symm (p q : Probe ℝ) :
    great_circle_distance p q = great_circle_distance q p := by
  rcases hp : p.geometry with _ | g1 <;> rcases hq : q.geometry with _ | g2 <;>
    simp only [great_circle_distance, hp, hq]
  exact haversine_km_symm _ _ _ _

theorem great_circle_distance_coincident (p q : Probe ℝ)
    (h : p.geometry = q.geometry) : great_circle_distance p q = 0 := by
  rcases hp : p.geometry with _ | g
  · rw [hp] at h
    simp only [great_circle_distance, hp, ← h]
  · rw [hp] at h
    simp only [great_circle_distance, hp, ← h]
    unfold haversine_km
    simp [sub_self, zero_div, Real.sin_zero, Real.sqrt_zero,
      Real.arcsin_zero]

theorem great_circle_distance_nonneg (p q : Probe ℝ) :
    0 ≤ great_circle_distance p q := by
  rcases hp : p.geometry with _ | g1 <;> rcases hq : q.geometry with _ | g2 <;>
    simp only [great_circle_distance, hp, hq] <;> try exact le_rfl
  unfold haversine_km
  have h1 := Real.arcsin_nonneg.mpr (Real.sqrt_nonneg
    (Real.sin ((radians g2.2 - radians g1.2) / 2) ^ 2 +
      Real.cos (radians g1.2) * Real.cos (radians g2.2) *
        Real.sin ((radians g2.1 - radians g1.1) / 2) ^ 2))
  nlinarith [h1]

/-! ### Claim theorems -/

section Claims

variable {α : Type*} [LinearOrderedField α]

/-- C1 (amended).  For every candidate list in which no candidate has a
usable position (the position-filtered pool is empty), select_diverse_subset
fails by raising an exception, namely the IndexError coming from probes[0]
on the empty filtered pool, rather than returning normally; no
EmptyPoolError exists in the code. -/
theorem C1_empty_pool_raises_index_error [DecidableEq α]
    (d : Probe α → Probe α → α) (probe_list : List (Probe α)) (k : ℕ)
    (cap : WithTop ℕ)
    (h : probe_list.filter (fun p => p.geometry.isSome) = []) :
    select_diverse_subset d probe_list k cap = .error .indexError := by
  unfold select_diverse_subset
  rw [h]

/-- Witness for C1 on a concrete one-probe pool without coordinates. -/
theorem C1_witness :
    ([⟨1, none, none⟩] : List (Probe ℚ)).filter
        (fun p => p.geometry.isSome) = [] ∧
    select_diverse_subset (fun _ _ => (0 : ℚ)) [⟨1, none, none⟩] 1 ⊤ =
      .error .indexError :=
  ⟨rfl, C1_empty_pool_raises_index_error _ _ 1 ⊤ rfl⟩

/-- C1 counterexample: on a pool whose single candidate has no position the
code yields the IndexError, which is not the EmptyPoolError the claim
names. -/
theorem C1_counterexample :
    select_diverse_subset (fun _ _ => (0 : ℚ)) [⟨1, none, none⟩] 1 ⊤ =
      .error .indexError ∧
    (Except.error PyErr.indexError : Except PyErr (List (Probe ℚ))) ≠
      .error .emptyPoolError :=
  ⟨rfl, by simp⟩

/-- C2 (code bug).  On the spec scenario (five positioned candidates, three
in ASN 1 and two in ASN 2, k = 3, at most one probe per ASN) the code does
not return a two-element selection: after one probe of each ASN is
selected the ASN filter empties the pool, next_diverse_selection returns
None as best probe, and select_diverse_subset raises a TypeError when it
subscripts that None. -/
theorem C2_group_exhaustion_raises_type_error :
    select_diverse_subset (fun _ _ => (0 : ℚ))
      [⟨1, some 1, some (0, 0)⟩, ⟨2, some 1, some (0, 1)⟩,
       ⟨3, some 1, some (0, 2)⟩, ⟨4, some 2, some (0, 3)⟩,
       ⟨5, some 2, some (0, 4)⟩] 3 1 = .error .typeError := rfl

/-- C4.  For every completed selection with a supplied per-group cap of at
least one, no ASN key occurs more than the cap among the returned
candidates; candidates with an absent ASN share the single Counter key
none, so they are capped jointly as one group. -/
theorem C4_group_cap [DecidableEq α] (d : Probe α → Probe α → α)
    (probe_list : List (Probe α)) (k : ℕ) (cap : WithTop ℕ)
    (sel : List (Probe α)) (hcap : (1 : WithTop ℕ) ≤ cap)
    (hsel : select_diverse_subset d probe_list k cap = .ok sel)
    (g : Option ℕ) :
    ((sel.countP (fun p => decide (p.asn_v4 = g)) : ℕ) : WithTop ℕ) ≤ cap := by
  unfold select_diverse_subset at hsel
  rcases hfil : probe_list.filter (fun p => p.geometry.isSome) with _ | ⟨p0, rest⟩
  · rw [hfil] at hsel
    cases hsel
  · rw [hfil] at hsel
    refine selLoop_cap rest.length rest [p0] _ _ sel ?_ ?_ hsel g
    · intro g2
      by_cases hg : p0.asn_v4 = g2
      · simp [hg]
      · have hg2 : ¬ g2 = p0.asn_v4 := fun he => hg he.symm
        simp [hg, hg2]
    · intro g2
      by_cases hg : g2 = p0.asn_v4
      · simpa [hg] using hcap
      · simp [hg]

/-- Witness for C4 on a concrete one-probe pool with cap one. -/
theorem C4_witness :
    ((1 : WithTop ℕ) ≤ 1) ∧
    select_diverse_subset (fun _ _ => (0 : ℚ)) [⟨1, some 5, some (0, 0)⟩] 1 1 =
      .ok [⟨1, some 5, some (0, 0)⟩] ∧
    ((([⟨1, some 5, some (0, 0)⟩] : List (Probe ℚ)).countP
        (fun p => decide (p.asn_v4 = some 5)) : ℕ) : WithTop ℕ) ≤ 1 :=
  ⟨le_rfl, rfl, C4_group_cap (fun _ _ => (0 : ℚ)) [⟨1, some 5, some (0, 0)⟩]
    1 1 [⟨1, some 5, some (0, 0)⟩] le_rfl rfl (some 5)⟩

/-- C7.  Whenever select_diverse_subset returns normally, the first element
of the returned sequence is the first candidate in input order with a
usable position. -/
theorem C7_seed_is_first_eligible [DecidableEq α]
    (d : Probe α → Probe α → α) (probe_list : List (Probe α)) (k : ℕ)
    (cap : WithTop ℕ) (sel : List (Probe α))
    (hsel : select_diverse_subset d probe_list k cap = .ok sel) :
    sel.head? = (probe_list.filter (fun p => p.geometry.isSome)).head? := by
  unfold select_diverse_subset at hsel
  rcases hfil : probe_list.filter (fun p => p.geometry.isSome) with _ | ⟨p0, rest⟩
  · rw [hfil] at hsel
    cases hsel
  · rw [hfil] at hsel
    have h2 := selLoop_ok_head rest.length rest [p0] _ _ sel (by simp) hsel
    rw [hfil, h2]
    rfl

/-- Witness for C7 on a concrete one-probe pool. -/
theorem C7_witness :
    select_diverse_subset (fun _ _ => (0 : ℚ)) [⟨1, none, some (0, 0)⟩] 1 ⊤ =
      .ok [⟨1, none, some (0, 0)⟩] ∧
    ([⟨1, none, some (0, 0)⟩] : List (Probe ℚ)).head? =
      (([⟨1, none, some (0, 0)⟩] : List (Probe ℚ)).filter
        (fun p => p.geometry.isSome)).head? :=
  ⟨rfl, C7_seed_is_first_eligible (fun _ _ => (0 : ℚ))
    [⟨1, none, some (0, 0)⟩] 1 ⊤ [⟨1, none, some (0, 0)⟩] rfl⟩

/-- C3.  For every non-empty pool of candidates that all carry usable
positions and every positive k, with the per-group cap unbounded, the
selector with the haversine metric returns normally and the returned
sequence has length exactly min k (pool size). -/
theorem C3_unbounded_cap_length (probe_list : List (Probe ℝ)) (k : ℕ)
    (hpos : ∀ p ∈ probe_list, p.geometry.isSome)
    (hne : probe_list ≠ []) (hk : 1 ≤ k) :
    ∃ sel, select_diverse_subset_geo probe_list k ⊤ = .ok sel ∧
      sel.length = min k probe_list.length := by
  rcases probe_list with _ | ⟨p0, rest⟩
  · exact absurd rfl hne
  · have hfil : (p0 :: rest).filter (fun p => p.geometry.isSome) =
        p0 :: rest := List.filter_eq_self.mpr hpos
    obtain ⟨sel, hs, hlen⟩ := selLoop_top_len (d := great_circle_distance)
      (k := k) great_circle_distance_nonneg rest.length rest [p0]
      (fun g => if g = p0.asn_v4 then 1 else 0) (fun _ => ⊤)
      le_rfl (by simp) (fun i => le_top)
    refine ⟨sel, ?_, ?_⟩
    · show select_diverse_subset great_circle_distance (p0 :: rest) k ⊤ =
        .ok sel
      unfold select_diverse_subset
      rw [hfil]
      exact hs
    · rw [hlen]
      simp only [List.length_cons, List.length_nil]
      omega

/-- Witness for C3 on a concrete one-probe pool. -/
theorem C3_witness :
    (∀ p ∈ ([⟨1, none, some (0, 0)⟩] : List (Probe ℝ)), p.geometry.isSome) ∧
    ([⟨1, none, some ((0 : ℝ), 0)⟩] : List (Probe ℝ)) ≠ [] ∧
    ∃ sel, select_diverse_subset_geo [⟨1, none, some (0, 0)⟩] 1 ⊤ =
        .ok sel ∧
      sel.length = min 1 ([⟨1, none, some ((0 : ℝ), 0)⟩] :
        List (Probe ℝ)).length :=
  ⟨by simp, by simp, C3_unbounded_cap_length [⟨1, none, some (0, 0)⟩] 1
    (by simp) (by simp) le_rfl⟩

/-- C5.  In every round, when next_diverse_selection returns a probe (the
data model guarantees the pool carries pairwise-distinct probe ids), the
returned probe's tracked nearest-distance after the round is at least that
of every other probe of the round's pool, and it is the first probe in
input order among those attaining that maximum. -/
theorem C5_max_min_first_in_order (d : Probe α → Probe α → α)
    (probes selected : List (Probe α)) (nn : ℕ → WithTop α) (b : Probe α)
    (hnodup : (probes.map Probe.id).Nodup)
    (hb : (next_diverse_selection d probes selected nn).1 = some b) :
    b ∈ probes ∧
    (∀ p ∈ probes, (next_diverse_selection d probes selected nn).2 p.id ≤
      (next_diverse_selection d probes selected nn).2 b.id) ∧
    ∃ l1 l2, probes = l1 ++ b :: l2 ∧
      ∀ p ∈ l1, (next_diverse_selection d probes selected nn).2 p.id <
        (next_diverse_selection d probes selected nn).2 b.id := by
  rcases hl : selected.getLast? with _ | last2
  · have hnone : (next_diverse_selection d probes selected nn).1 = none := by
      unfold next_diverse_selection
      rw [hl]
    rw [hnone] at hb
    cases hb
  · have hres1 : (next_diverse_selection d probes selected nn).1 =
        (probes.foldl (ndsStep d last2)
          (none, ((-1 : α) : WithTop α), nn)).1 := by
      unfold next_diverse_selection
      rw [hl]
    have hres2 : (next_diverse_selection d probes selected nn).2 =
        (probes.foldl (ndsStep d last2)
          (none, ((-1 : α) : WithTop α), nn)).2.2 := by
      unfold next_diverse_selection
      rw [hl]
    have hinv := @ndsFold_inv α _ d last2 _ nn probes []
      (none, ((-1 : α) : WithTop α), nn) (by simpa using hnodup) ndsInv_nil
    simp only [List.nil_append] at hinv
    obtain ⟨h1, h2, h3⟩ := hinv
    rw [hres1] at hb
    rcases h3 with ⟨hbn, _, _⟩ | ⟨b2, l1, l2, hb2, hm, hsplit, hall, hstrict⟩
    · rw [hbn] at hb
      cases hb
    · rw [hb2] at hb
      have hbb : b2 = b := Option.some.inj hb
      subst hbb
      have hbmem : b2 ∈ probes := by
        rw [hsplit]
        exact List.mem_append.mpr (Or.inr (List.mem_cons_self _ _))
      refine ⟨hbmem, ?_, l1, l2, hsplit, ?_⟩
      · intro p hp
        rw [hres2, h1 p hp, h1 b2 hbmem]
        exact hall p hp
      · intro p hp
        have hpmem : p ∈ probes := by
          rw [hsplit]
          exact List.mem_append.mpr (Or.inl hp)
        rw [hres2, h1 p hpmem, h1 b2 hbmem]
        exact hstrict p hp

/-- Witness for C5 on a concrete two-probe round. -/
theorem C5_witness :
    (([⟨1, none, some (0, 0)⟩, ⟨2, none, some (0, 1)⟩] :
        List (Probe ℚ)).map Probe.id).Nodup ∧
    (next_diverse_selection (fun _ _ => (0 : ℚ))
        [⟨1, none, some (0, 0)⟩, ⟨2, none, some (0, 1)⟩]
        [⟨3, none, some (0, 0)⟩] (fun _ => ⊤)).1 =
      some ⟨1, none, some (0, 0)⟩ ∧
    (⟨1, none, some (0, 0)⟩ : Probe ℚ) ∈
      ([⟨1, none, some (0, 0)⟩, ⟨2, none, some (0, 1)⟩] : List (Probe ℚ)) :=
  ⟨by decide, rfl,
    (C5_max_min_first_in_order (fun _ _ => (0 : ℚ))
      [⟨1, none, some (0, 0)⟩, ⟨2, none, some (0, 1)⟩]
      [⟨3, none, some (0, 0)⟩] (fun _ => ⊤) ⟨1, none, some (0, 0)⟩
      (by decide) (by rfl)).1⟩

/-- C6.  The tracker update stores, for the updated probe's id, the minimum
of the prior stored value and the distance to the newly selected probe
(entries default to positive infinity); consequently no stored value ever
increases, neither across one update nor across a whole round. -/
theorem C6_tracker_update_min_and_monotone :
    (∀ (d : Probe α → Probe α → α) (last : Probe α) (nn : ℕ → WithTop α)
        (p : Probe α),
      ndsUpdate d last nn p p.id = min (nn p.id) ((d p last : WithTop α))) ∧
    (∀ (d : Probe α → Probe α → α) (last : Probe α)
        (st : Option (Probe α) × WithTop α × (ℕ → WithTop α)) (p : Probe α)
        (i : ℕ), (ndsStep d last st p).2.2 i ≤ st.2.2 i) ∧
    (∀ (d : Probe α → Probe α → α) (probes selected : List (Probe α))
        (nn : ℕ → WithTop α) (i : ℕ),
      (next_diverse_selection d probes selected nn).2 i ≤ nn i) :=
  ⟨fun _ _ nn p => ndsUpdate_self nn p,
   fun _ _ st p i => by rw [ndsStep_nn]; exact ndsUpdate_le _ _ _,
   fun _ _ _ _ i => nds_nn_le i⟩

/-- C8.  The great-circle distance is symmetric in its two arguments, and
it is zero for coincident positions. -/
theorem C8_symm_and_coincident_zero :
    (∀ p q : Probe ℝ, great_circle_distance p q = great_circle_distance q p) ∧
    (∀ p q : Probe ℝ, p.geometry = q.geometry →
      great_circle_distance p q = 0) :=
  ⟨great_circle_distance_symm, great_circle_distance_coincident⟩

/-- Witness for C8 at two probes sharing the position (0, 0). -/
theorem C8_witness :
    ((⟨1, none, some (0, 0)⟩ : Probe ℝ).geometry =
      (⟨2, none, some (0, 0)⟩ : Probe ℝ).geometry) ∧
    great_circle_distance ⟨1, none, some (0, 0)⟩ ⟨2, none, some (0, 0)⟩ = 0 :=
  ⟨rfl, C8_symm_and_coincident_zero.2 ⟨1, none, some (0, 0)⟩
    ⟨2, none, some (0, 0)⟩ rfl⟩

/-- C9.  The great-circle distance between longitude-latitude positions
(0, 0) and (0, 90), equator to north pole, is a quarter great-circle of
radius 6371, namely pi / 2 * 6371 kilometers. -/
theorem C9_equator_to_pole_quarter_circle (id1 id2 : ℕ) (a1 a2 : Option ℕ) :
    great_circle_distance ⟨id1, a1, some (0, 0)⟩ ⟨id2, a2, some (0, 90)⟩ =
      Real.pi / 2 * 6371 := by
  show haversine_km (radians 0) (radians 0) (radians 0) (radians 90) = _
  have hr0 : radians 0 = 0 := by
    unfold radians
    ring
  have hr90 : radians 90 = Real.pi / 2 := by
    unfold radians
    ring
  rw [hr0, hr90]
  unfold haversine_km
  have h1 : (Real.pi / 2 - 0) / 2 = Real.pi / 4 := by ring
  have h2 : ((0 : ℝ) - 0) / 2 = 0 := by ring
  rw [h1, h2]
  have harg : Real.sin (Real.pi / 4) ^ 2 +
      Real.cos 0 * Real.cos (Real.pi / 2) * Real.sin 0 ^ 2 =
      Real.sin (Real.pi / 4) ^ 2 := by
    rw [Real.cos_pi_div_two, Real.sin_zero]
    ring
  rw [harg]
  have hs : 0 ≤ Real.sin (Real.pi / 4) := by
    rw [Real.sin_pi_div_four]
    positivity
  rw [Real.sqrt_sq hs]
  have hpi := Real.pi_pos
  rw [Real.arcsin_sin (by nlinarith) (by nlinarith)]
  ring

/-- C10 counterexample: when the same candidate record occurs twice in the
input, the returned selection can contain it twice, so the returned
elements are not pairwise distinct. -/
theorem C10_counterexample :
    select_diverse_subset (fun _ _ => (0 : ℚ))
      [⟨1, some 1, some (0, 0)⟩, ⟨1, some 1, some (0, 0)⟩] 2 ⊤ =
      .ok [⟨1, some 1, some (0, 0)⟩, ⟨1, some 1, some (0, 0)⟩] ∧
    ¬ ([⟨1, some 1, some (0, 0)⟩, ⟨1, some 1, some (0, 0)⟩] :
        List (Probe ℚ)).Nodup :=
  ⟨rfl, by decide⟩

/-- C10 (amended).  Every returned selection is a sub-multiset of the
input: each candidate occurs in the result at most as often as in the
input list; in particular the result is pairwise distinct whenever the
input list has no duplicate records. -/
theorem C10_subset_multiplicities [DecidableEq α]
    (d : Probe α → Probe α → α) (probe_list : List (Probe α)) (k : ℕ)
    (cap : WithTop ℕ) (sel : List (Probe α))
    (hsel : select_diverse_subset d probe_list k cap = .ok sel) :
    (∀ c : Probe α, List.count c sel ≤ List.count c probe_list) ∧
    (probe_list.Nodup → sel.Nodup) := by
  unfold select_diverse_subset at hsel
  rcases hfil : probe_list.filter (fun p => p.geometry.isSome) with _ | ⟨p0, rest⟩
  · rw [hfil] at hsel
    cases hsel
  · rw [hfil] at hsel
    have hcount : ∀ c : Probe α, List.count c sel ≤ List.count c probe_list := by
      intro c
      have h1 := selLoop_count rest.length rest [p0] _ _ sel c hsel
      have h2 : List.count c (p0 :: rest) =
          List.count c [p0] + List.count c rest := by
        rw [show p0 :: rest = [p0] ++ rest from rfl, List.count_append]
      have h3 : List.count c (p0 :: rest) ≤ List.count c probe_list := by
        rw [← hfil]
        exact (List.filter_sublist _).count_le c
      omega
    refine ⟨hcount, ?_⟩
    intro hnd
    rw [List.nodup_iff_count_le_one] at hnd ⊢
    intro a
    exact le_trans (hcount a) (hnd a)

/-- Witness for C10 on a concrete one-probe pool. -/
theorem C10_witness :
    select_diverse_subset (fun _ _ => (0 : ℚ)) [⟨1, some 1, some (0, 0)⟩] 1 ⊤ =
      .ok [⟨1, some 1, some (0, 0)⟩] ∧
    (∀ c : Probe ℚ, List.count c [⟨1, some 1, some (0, 0)⟩] ≤
      List.count c [⟨1, some 1, some (0, 0)⟩]) ∧
    (([⟨1, some 1, some (0, 0)⟩] : List (Probe ℚ)).Nodup →
      ([⟨1, some 1, some (0, 0)⟩] : List (Probe ℚ)).Nodup) :=
  ⟨rfl, C10_subset_multiplicities (fun _ _ => (0 : ℚ))
    [⟨1, some 1, some (0, 0)⟩] 1 ⊤ [⟨1, some 1, some (0, 0)⟩] rfl⟩

end Claims
